import Mathlib

set_option maxRecDepth 10000

/-!
Shallow embedding of the PIN messaging repository.

Part 1 — the crypto service (src/src/lib/crossTab.ts, crypto section):
X3DH key agreement, Double Ratchet state, AES-GCM message encryption.

Modelling conventions for the Web Crypto primitives:
* An ECDH key pair is represented by its secret scalar (a `Nat`); the
  exported public key is represented by the same scalar (the code never
  inverts a public key, so this is a faithful symbolic abstraction), and
  `deriveBits` on a private scalar and a public scalar is the commutative
  product of the scalars, wrapped in `KeyData.raw`.
* `hkdfDerive(ikm, info)` is the free constructor `KeyData.hkdf`; two HKDF
  outputs are equal exactly when both the input key material and the `info`
  label agree (collision-freeness of the KDF).
* The concatenation of the three fixed-width (32-byte) DH outputs is
  `KeyData.concat3` (both X3DH routines concatenate exactly three). Because
  each component has fixed width, byte-level concatenation is injective in
  the three components.
* AES-GCM ciphertext is symbolic: it remembers the plaintext, the key and
  the IV; decryption succeeds (authentication tag verifies) exactly when
  it is attempted with the same key and IV.
* Randomness (fresh key pairs, fresh IVs) is passed in explicitly as
  parameters.
-/

/-- Symbolic key material produced by the Web Crypto calls in crossTab.ts. -/
inductive KeyData where
  | raw : Nat → KeyData
  | hkdf : KeyData → String → KeyData
  | concat3 : KeyData → KeyData → KeyData → KeyData
  deriving DecidableEq, Repr

/-- ECDH `deriveBits`: DH of a private scalar against a public scalar.
Commutative in the two scalars, which is the defining algebraic property
of Diffie-Hellman used by X3DH. -/
def dhBits (priv pub : Nat) : KeyData := KeyData.raw (priv * pub)

/-- `hkdfDerive(inputKeyMaterial, info)` from crossTab.ts (fixed zero salt,
SHA-256, AES-GCM-256 output key). -/
def hkdfDerive (inputKeyMaterial : KeyData) (info : String) : KeyData :=
  KeyData.hkdf inputKeyMaterial info

/-- The pre-key bundle published by a receiver (public scalars only;
the signature and optional one-time pre-key are never consumed by
`x3dhSender`, which imports just `identityKey` and `signedPreKey`). -/
structure PreKeyBundle where
  identityKey : Nat
  signedPreKey : Nat
  deriving DecidableEq, Repr

/-- `x3dhSender(senderIdentityKey, recipientBundle)` from crossTab.ts.
The freshly generated ephemeral key pair is passed in as `ephemeral`.
DH1 = senderIdentity x recipientSignedPreKey,
DH2 = ephemeral x recipientIdentity,
DH3 = ephemeral x recipientSignedPreKey;
shared secret = HKDF(DH1 || DH2 || DH3, "PIN-X3DH-SharedSecret").
Returns the shared secret and the exported ephemeral public key. -/
def x3dhSender (senderIdentityKey : Nat) (recipientBundle : PreKeyBundle)
    (ephemeral : Nat) : KeyData × Nat :=
  let dh1 := dhBits senderIdentityKey recipientBundle.signedPreKey
  let dh2 := dhBits ephemeral recipientBundle.identityKey
  let dh3 := dhBits ephemeral recipientBundle.signedPreKey
  (hkdfDerive (KeyData.concat3 dh1 dh2 dh3) "PIN-X3DH-SharedSecret", ephemeral)

/-- `x3dhReceiver(receiverIdentityKey, receiverSignedPreKey,
senderIdentityPub, senderEphemeralPub)` from crossTab.ts.
DH1 = receiverSignedPreKey x senderIdentity,
DH2 = receiverIdentity x senderEphemeral,
DH3 = receiverSignedPreKey x senderEphemeral;
shared secret = HKDF(DH1 || DH2 || DH3, "PIN-X3DH-SharedSecret"). -/
def x3dhReceiver (receiverIdentityKey receiverSignedPreKey : Nat)
    (senderIdentityPub senderEphemeralPub : Nat) : KeyData :=
  let dh1 := dhBits receiverSignedPreKey senderIdentityPub
  let dh2 := dhBits receiverIdentityKey senderEphemeralPub
  let dh3 := dhBits receiverSignedPreKey senderEphemeralPub
  hkdfDerive (KeyData.concat3 dh1 dh2 dh3) "PIN-X3DH-SharedSecret"

/-- Double Ratchet state (interface `RatchetState` in crossTab.ts).
Key pairs are represented by their secret scalar, remote public keys by
their scalar. -/
structure RatchetState where
  rootKey : KeyData
  sendingChainKey : Option KeyData
  receivingChainKey : Option KeyData
  sendingRatchetKey : Option Nat
  receivingRatchetKey : Option Nat
  sendCount : Nat
  receiveCount : Nat
  deriving DecidableEq, Repr

/-- `initRatchet(sharedSecret, isInitiator)`; the freshly generated ratchet
key pair is passed in as `ratchetKey`. -/
def initRatchet (sharedSecret : KeyData) (isInitiator : Bool)
    (ratchetKey : Nat) : RatchetState :=
  { rootKey := sharedSecret
    sendingChainKey := none
    receivingChainKey := none
    sendingRatchetKey := if isInitiator then some ratchetKey else none
    receivingRatchetKey := none
    sendCount := 0
    receiveCount := 0 }

/-- Symbolic AES-GCM ciphertext: records the plaintext, the encryption key
and the IV under which it was produced. -/
structure Ciphertext where
  plaintext : String
  key : KeyData
  iv : Nat
  deriving DecidableEq, Repr

/-- Failures of the crypto layer that surface as thrown exceptions. -/
inductive CryptoError where
  | authFailure
  deriving DecidableEq, Repr

/-- `encryptMessage(plaintext, key)`: AES-GCM with a random 12-byte IV
(the IV is passed in explicitly). Returns ciphertext and IV. -/
def encryptMessage (plaintext : String) (key : KeyData) (iv : Nat) :
    Ciphertext × Nat :=
  (⟨plaintext, key, iv⟩, iv)

/-- `decryptMessage(ciphertext, iv, key)`: AES-GCM decryption; the
authentication tag verifies exactly when the key and IV match the ones
used at encryption, otherwise the call throws. -/
def decryptMessage (ciphertext : Ciphertext) (iv : Nat) (key : KeyData) :
    Except CryptoError String :=
  if ciphertext.key = key ∧ ciphertext.iv = iv then
    Except.ok ciphertext.plaintext
  else
    Except.error CryptoError.authFailure

/-- `deriveMessageKey(chainKey)`: message key = HKDF(chainKey,
"PIN-MessageKey"), next chain key = HKDF(chainKey, "PIN-ChainKey"). -/
def deriveMessageKey (chainKey : KeyData) : KeyData × KeyData :=
  (hkdfDerive chainKey "PIN-MessageKey", hkdfDerive chainKey "PIN-ChainKey")

/-- The wire payload (interface `EncryptedPayload` in crossTab.ts).
`ratchetPub = none` models the empty string sentinel the code uses when
the sender has no ratchet key. -/
structure EncryptedPayload where
  ciphertext : Ciphertext
  iv : Nat
  tag : String
  ratchetPub : Option Nat
  messageNumber : Nat
  deriving DecidableEq, Repr

/-- `ratchetStep(state, remotePublicKey?)`; the freshly generated sending
ratchet key pair is passed in as `newRatchetKey`. -/
def ratchetStep (state : RatchetState) (remotePublicKey : Option Nat)
    (newRatchetKey : Nat) : RatchetState :=
  match remotePublicKey with
  | none => state
  | some remote =>
      let receivingChainKey :=
        match state.sendingRatchetKey with
        | some own =>
            some (hkdfDerive (dhBits own remote) "PIN-Ratchet-Receiving")
        | none => state.receivingChainKey
      { state with
          receivingRatchetKey := some remote
          receivingChainKey := receivingChainKey
          sendingRatchetKey := some newRatchetKey
          sendingChainKey :=
            some (hkdfDerive (dhBits newRatchetKey remote) "PIN-Ratchet-Sending") }

/-- `ratchetEncrypt(plaintext, state)`; the random IV is passed in. -/
def ratchetEncrypt (plaintext : String) (state : RatchetState) (iv : Nat) :
    EncryptedPayload × RatchetState :=
  let chainKey :=
    match state.sendingChainKey with
    | some ck => ck
    | none => hkdfDerive state.rootKey "PIN-Initial-Send"
  let derived := deriveMessageKey chainKey
  let newState :=
    { state with sendingChainKey := some derived.2, sendCount := state.sendCount + 1 }
  let encrypted := encryptMessage plaintext derived.1 iv
  ({ ciphertext := encrypted.1
     iv := encrypted.2
     tag := ""
     ratchetPub := state.sendingRatchetKey
     messageNumber := newState.sendCount }, newState)

/-- `ratchetDecrypt(payload, state)`; the ratchet key pair generated inside
a DH ratchet step is passed in as `stepRatchetKey`.  On an AES-GCM
authentication failure the error propagates and no new state is produced
(the code only ever mutates a local copy of the state). -/
def ratchetDecrypt (payload : EncryptedPayload) (state : RatchetState)
    (stepRatchetKey : Nat) : Except CryptoError (String × RatchetState) :=
  let stepped :=
    match payload.ratchetPub with
    | some remote => ratchetStep state (some remote) stepRatchetKey
    | none => state
  let chainKey :=
    match stepped.receivingChainKey with
    | some ck => ck
    | none => hkdfDerive stepped.rootKey "PIN-Initial-Receive"
  let derived := deriveMessageKey chainKey
  let newState :=
    { stepped with
        receivingChainKey := some derived.2
        receiveCount := stepped.receiveCount + 1 }
  match decryptMessage payload.ciphertext payload.iv derived.1 with
  | Except.ok plaintext => Except.ok (plaintext, newState)
  | Except.error e => Except.error e

/-- The `decrypt` callback of the useSignalProtocol hook: it calls
`ratchetDecrypt` once; on success it stores the new state for the channel,
on error it logs, keeps the previous state, returns `null`, and does not
retry. -/
def callerDecrypt (payload : EncryptedPayload) (state : RatchetState)
    (stepRatchetKey : Nat) : Option String × RatchetState :=
  match ratchetDecrypt payload state stepRatchetKey with
  | Except.ok (plaintext, newState) => (some plaintext, newState)
  | Except.error _ => (none, state)

/-!
Part 2 — the offline store (src/src/lib/db.ts): `WriteAheadLog` and
`PinDatabase` over IndexedDB.

Modelling conventions:
* The `messages` object store has key path `id` (a string).  IndexedDB
  keeps records ordered by key, so the durable store is modelled as a
  `List LocalMessage` in ascending key order; `put` is keyed
  insert-or-replace at the key position (`putMsg`).  String keys are
  compared by code units (`idbKeyLt`).
* An index on `channelId` enumerates records in (channelId, primary key)
  order, so for a fixed channel a cursor visits the filtered list in
  store order; direction `prev` visits it reversed.
* `Date.now()` timestamps are passed in explicitly as `Nat` milliseconds.
* The WAL buffer plus the durable store form a `StoreState`; each
  operation is a function on it.
-/

/-- IndexedDB string-key comparison: lexicographic by code unit. -/
def charListLt : List Char → List Char → Bool
  | _, [] => false
  | [], _ :: _ => true
  | a :: as, b :: bs =>
      if a.toNat < b.toNat then true
      else if b.toNat < a.toNat then false
      else charListLt as bs

/-- Key order on IndexedDB string keys. -/
def idbKeyLt (a b : String) : Bool := charListLt a.data b.data

/-- `LocalMessage.status` field values. -/
inductive MsgStatus where
  | pending
  | sent
  | delivered
  | failed
  deriving DecidableEq, Repr

/-- `LocalMessage.mediaType` field values (the `null` case is `Option`). -/
inductive MediaType where
  | text
  | image
  | audio
  | video
  | product
  | catalogSync
  deriving DecidableEq, Repr

/-- The `LocalMessage` record of db.ts. -/
structure LocalMessage where
  id : String
  channelId : String
  bucketId : Nat
  senderPin : String
  content : String
  encryptedContent : String
  mediaType : Option MediaType
  mediaUrl : Option String
  expiresAt : Nat
  createdAt : Nat
  status : MsgStatus
  syncedAt : Option Nat
  deriving DecidableEq, Repr

/-- Combined state of the in-memory WAL buffer (append order) and the
durable `messages` object store (ascending key order). -/
structure StoreState where
  buffer : List LocalMessage
  store : List LocalMessage
  deriving DecidableEq, Repr

/-- A durable-write failure of the backing storage. -/
inductive DbError where
  | storageFailure
  deriving DecidableEq, Repr

namespace PinDb

/-- `store.put(record)` on the `messages` object store: insert or replace
at the record's key, keeping records in ascending key order. -/
def putMsg (m : LocalMessage) : List LocalMessage → List LocalMessage
  | [] => [m]
  | x :: xs =>
      if m.id == x.id then m :: xs
      else if idbKeyLt m.id x.id then m :: x :: xs
      else x :: putMsg m xs

/-- The scrub applied before every durable write of a message:
`{ ...msg, content: '[CIFRADO_LOCAL]' }`. -/
def scrubMsg (m : LocalMessage) : LocalMessage :=
  { m with content := "[CIFRADO_LOCAL]" }

/-- `WriteAheadLog.flush()`: no-op on an empty buffer; otherwise snapshot
the buffer, clear it, and `put` each snapshotted message with its
`content` scrubbed to the sentinel. -/
def flushWal (st : StoreState) : StoreState :=
  if st.buffer.isEmpty then st
  else
    { buffer := []
      store := st.buffer.foldl (fun acc m => putMsg (scrubMsg m) acc) st.store }

/-- `WriteAheadLog.flush()` when the backing storage may fail: the buffer
is snapshotted and cleared before the transaction; if the durable write
fails, the error is surfaced and the transaction leaves the store
untouched, but the buffer has already been emptied. -/
def flushWalFallible (st : StoreState) (writeOk : Bool) :
    Option DbError × StoreState :=
  if st.buffer.isEmpty then (none, st)
  else
    let messages := st.buffer
    let cleared : StoreState := { st with buffer := [] }
    if writeOk then
      (none,
        { cleared with
            store := messages.foldl (fun acc m => putMsg (scrubMsg m) acc) cleared.store })
    else
      (some DbError.storageFailure, cleared)

/-- `PinDatabase.addMessage(message)`: append to the WAL buffer;
auto-flush once the buffer reaches 20 entries. -/
def addMessage (st : StoreState) (m : LocalMessage) : StoreState :=
  let st1 : StoreState := { st with buffer := st.buffer ++ [m] }
  if 20 ≤ st1.buffer.length then flushWal st1 else st1

/-- `PinDatabase.addMessageDirect(message)`: scrub the content to the
sentinel and `put` directly into the durable store. -/
def addMessageDirect (st : StoreState) (m : LocalMessage) : StoreState :=
  { st with store := putMsg (scrubMsg m) st.store }

/-- The read-side rehydration in `getMessagesByChannel`: a record whose
content is the sentinel gets its `content` replaced by
`encryptedContent`. -/
def hydrateMsg (m : LocalMessage) : LocalMessage :=
  if m.content == "[CIFRADO_LOCAL]" then { m with content := m.encryptedContent }
  else m

/-- The cursor loop of `getMessagesByChannel`: walk the given (already
direction-ordered) record sequence, rehydrating each record, stopping
after `limit` records. -/
def cursorTake : Nat → List LocalMessage → List LocalMessage
  | 0, _ => []
  | _, [] => []
  | Nat.succ n, m :: rest => hydrateMsg m :: cursorTake n rest

/-- `PinDatabase.getMessagesByChannel(channelId, limit)`: flush the WAL,
open a `prev` cursor on the `by-channel` index restricted to `channelId`,
collect up to `limit` records, and reverse the collected list.  Returns
the list together with the state after the flush. -/
def getMessagesByChannel (st : StoreState) (channelId : String)
    (limit : Nat := 50) : List LocalMessage × StoreState :=
  let st1 := flushWal st
  let channelAsc := st1.store.filter (fun m => m.channelId == channelId)
  ((cursorTake limit channelAsc.reverse).reverse, st1)

/-- `PinDatabase.updateMessageStatus(id, status)`: flush the WAL, `get`
the record with key `id`; if present, set its `status` and
`syncedAt := Date.now()` and `put` it back; otherwise do nothing. -/
def updateMessageStatus (st : StoreState) (id : String) (status : MsgStatus)
    (now : Nat) : StoreState :=
  let st1 := flushWal st
  match st1.store.find? (fun m => m.id == id) with
  | none => st1
  | some m =>
      { st1 with
          store := putMsg { m with status := status, syncedAt := some now } st1.store }

/-- `PinDatabase.deleteExpiredMessages()`: flush the WAL, then walk the
`by-expires` index with `IDBKeyRange.upperBound(now)` (inclusive upper
bound), deleting every visited record and counting the deletions. -/
def deleteExpiredMessages (st : StoreState) (now : Nat) : Nat × StoreState :=
  let st1 := flushWal st
  ((st1.store.filter (fun m => m.expiresAt ≤ now)).length,
    { st1 with store := st1.store.filter (fun m => !(m.expiresAt ≤ now : Bool)) })

end PinDb

/-!
Part 3 — bucket derivation (db.ts `calculateBucketId`) and the
cloud-to-local message conversions (src/src/lib/sync.ts).
-/

/-- `calculateBucketId(timestamp)` from db.ts: 10-day buckets,
`Math.floor(timestamp / (10 * 24 * 60 * 60 * 1000))`. -/
def calculateBucketId (timestamp : Nat) : Nat :=
  timestamp / 864000000

/-- The WHOAPP-to-local conversion performed by
`syncService.subscribeToChannel` in sync.ts when a realtime `INSERT`
arrives: the stored record keeps the local channel id, takes `createdAt`
from the cloud row, and hard-codes `bucketId: 0`. -/
def syncRealtimeToLocal (localChannelId : String) (cloudId : String)
    (cloudContent : String) (cloudType : Option MediaType)
    (cloudMediaUrl : Option String) (cloudCreatedAt : Nat) (now : Nat) :
    LocalMessage :=
  { id := cloudId
    channelId := localChannelId
    bucketId := 0
    senderPin := "CLOUD_USER"
    content := "[ENCRIPTADO]"
    encryptedContent := cloudContent
    mediaType := cloudType
    mediaUrl := cloudMediaUrl
    expiresAt := now + 86400000
    createdAt := cloudCreatedAt
    status := MsgStatus.delivered
    syncedAt := some now }

/-!
Part 4 — the remote admission service: the `heartbeat` RPC of the
Supabase SQL schema (`active_sessions` table).

Modelling conventions: the table is a list of rows; `now()` is passed in;
user ids are `Nat`; `ORDER BY last_heartbeat ASC LIMIT 1` picks a row of
minimal `last_heartbeat` (the first such row in table order).  The
capacity literal in the SQL is 180.
-/

/-- `active_sessions.status` values. -/
inductive SessionStatus where
  | active
  | queued
  deriving DecidableEq, Repr

/-- A row of the `active_sessions` table. -/
structure Session where
  userId : Nat
  pinId : String
  lastHeartbeat : Nat
  status : SessionStatus
  isTyping : Bool
  deriving DecidableEq, Repr

namespace Sessions

/-- The capacity ceiling hard-coded in the `heartbeat` SQL function. -/
def capacity : Nat := 180

/-- `SELECT count(*) FROM active_sessions WHERE status = 'active'`. -/
def activeCount (tbl : List Session) : Nat :=
  (tbl.filter (fun s => s.status == SessionStatus.active)).length

/-- Number of rows with status `queued`. -/
def queuedCount (tbl : List Session) : Nat :=
  (tbl.filter (fun s => s.status == SessionStatus.queued)).length

/-- The `INSERT ... ON CONFLICT (user_id) DO UPDATE` of `heartbeat`:
`underCap` is the pre-computed `active_count < 180`.  A new row is inserted
with status `active`/`queued` according to `underCap`; an existing row gets
`last_heartbeat = now()` and is promoted to `active` only when `underCap`. -/
def upsertSession (tbl : List Session) (uid : Nat) (pin : String) (now : Nat)
    (underCap : Bool) : List Session :=
  if tbl.any (fun s => s.userId == uid) then
    tbl.map (fun s =>
      if s.userId == uid then
        { s with
            lastHeartbeat := now
            status := if underCap then SessionStatus.active else s.status }
      else s)
  else
    tbl ++ [{ userId := uid, pinId := pin, lastHeartbeat := now
              status := if underCap then SessionStatus.active else SessionStatus.queued
              isTyping := false }]

/-- The eviction subquery of `heartbeat`:
`SELECT user_id FROM active_sessions WHERE status = 'active' AND
is_typing = false ORDER BY last_heartbeat ASC LIMIT 1`. -/
def findLRU (tbl : List Session) : Option Session :=
  tbl.foldl
    (fun best s =>
      if s.status == SessionStatus.active && !s.isTyping then
        match best with
        | none => some s
        | some b => if s.lastHeartbeat < b.lastHeartbeat then some s else some b
      else best)
    none

/-- `UPDATE active_sessions SET status = 'queued' WHERE user_id = w`. -/
def demoteUser (tbl : List Session) (uid : Nat) : List Session :=
  tbl.map (fun s =>
    if s.userId == uid then { s with status := SessionStatus.queued } else s)

/-- The `heartbeat(p_user_id, p_pin_id)` RPC: count active sessions,
upsert the caller (made active only while under capacity), and — when the
pre-upsert active count is at or over capacity — demote the
least-recently-active non-typing active session to `queued`. -/
def heartbeat (tbl : List Session) (uid : Nat) (pin : String) (now : Nat) :
    List Session :=
  let cnt := activeCount tbl
  let tbl1 := upsertSession tbl uid pin now (cnt < capacity)
  if capacity ≤ cnt then
    match findLRU tbl1 with
    | some w => demoteUser tbl1 w.userId
    | none => tbl1
  else tbl1

/-- Status of a user's row, if present (`find?` returns the first match;
user ids are unique in the real table, enforced by its primary key). -/
def statusOfUser (tbl : List Session) (uid : Nat) : Option SessionStatus :=
  (tbl.find? (fun s => s.userId == uid)).map (fun s => s.status)

end Sessions

/-- The zero-knowledge-at-rest invariant over the durable message store:
every record's plaintext `content` field is the fixed sentinel. -/
def contentScrubbed (l : List LocalMessage) : Prop :=
  ∀ m ∈ l, m.content = "[CIFRADO_LOCAL]"

/-!
Theorems.
-/

/-- C2: the shared secret `x3dhSender` computes from the receiver's
pre-key bundle equals the one `x3dhReceiver` computes from the sender's
identity and ephemeral public keys: the reordered DH pairings agree by
commutativity of DH, and both sides apply HKDF with the same label. -/
theorem x3dh_sender_receiver_agree
    (senderIdentity ephemeral receiverIdentity receiverSignedPreKey : Nat) :
    (x3dhSender senderIdentity
        ⟨receiverIdentity, receiverSignedPreKey⟩ ephemeral).1
      = x3dhReceiver receiverIdentity receiverSignedPreKey
          senderIdentity ephemeral := by
  simp [x3dhSender, x3dhReceiver, dhBits, hkdfDerive, Nat.mul_comm]

/-- C1: the round trip fails on the code as written.  For every plaintext
and every freshly agreed session (both ratchet states initialised from the
same shared root secret, the sender as initiator), `ratchetDecrypt` of the
payload produced by `ratchetEncrypt` throws an AES-GCM authentication
failure: the sender derives its initial sending chain key with HKDF info
"PIN-Initial-Send" while the receiver derives its initial receiving chain
key with "PIN-Initial-Receive", so the two message keys never match. -/
theorem ratchet_roundtrip_fails (secret : KeyData) (plaintext : String)
    (senderRatchetKey receiverRatchetKey stepRatchetKey iv : Nat) :
    ratchetDecrypt
        (ratchetEncrypt plaintext (initRatchet secret true senderRatchetKey) iv).1
        (initRatchet secret false receiverRatchetKey) stepRatchetKey
      = Except.error CryptoError.authFailure := by
  simp [ratchetDecrypt, ratchetEncrypt, ratchetStep, initRatchet,
    deriveMessageKey, encryptMessage, decryptMessage, hkdfDerive, dhBits]

/-- C9: a failing decryption is surfaced and leaves the caller's ratchet
state untouched — the hook's `decrypt` returns `none` and keeps the
previous state for the channel, with no retry. -/
theorem ratchetDecrypt_failure_preserves_state
    (payload : EncryptedPayload) (state : RatchetState) (stepRatchetKey : Nat)
    (e : CryptoError)
    (h : ratchetDecrypt payload state stepRatchetKey = Except.error e) :
    callerDecrypt payload state stepRatchetKey = (none, state) := by
  simp [callerDecrypt, h]

/-- Witness for C9 at a concrete failing payload: the first message of a
fresh session (which fails to decrypt, per the C1 analysis). -/
theorem ratchetDecrypt_failure_preserves_state_witness :
    ratchetDecrypt
        (ratchetEncrypt "hola" (initRatchet (KeyData.raw 7) true 1) 5).1
        (initRatchet (KeyData.raw 7) false 2) 3
      = Except.error CryptoError.authFailure
    ∧ callerDecrypt
        (ratchetEncrypt "hola" (initRatchet (KeyData.raw 7) true 1) 5).1
        (initRatchet (KeyData.raw 7) false 2) 3
      = (none, initRatchet (KeyData.raw 7) false 2) := by
  refine ⟨rfl, ?_⟩
  exact ratchetDecrypt_failure_preserves_state _ _ _ CryptoError.authFailure rfl


/-- Membership after a keyed `put`: every record of the result is the
written record or one of the old records. -/
theorem mem_putMsg {m' m : LocalMessage} {l : List LocalMessage}
    (h : m' ∈ PinDb.putMsg m l) : m' = m ∨ m' ∈ l := by
  induction l with
  | nil => simpa [PinDb.putMsg] using h
  | cons x xs ih =>
      simp only [PinDb.putMsg] at h
      by_cases h1 : m.id == x.id
      · simp only [h1, if_true] at h
        rcases List.mem_cons.mp h with h2 | h2
        · exact Or.inl h2
        · exact Or.inr (List.mem_cons_of_mem _ h2)
      · simp only [h1, if_false, Bool.false_eq_true] at h
        by_cases h2 : idbKeyLt m.id x.id
        · simp only [h2, if_true] at h
          rcases List.mem_cons.mp h with h3 | h3
          · exact Or.inl h3
          · exact Or.inr h3
        · simp only [h2, if_false, Bool.false_eq_true] at h
          rcases List.mem_cons.mp h with h3 | h3
          · exact Or.inr (h3 ▸ List.mem_cons_self x xs)
          · rcases ih h3 with h4 | h4
            · exact Or.inl h4
            · exact Or.inr (List.mem_cons_of_mem _ h4)

/-- Folding scrubbed `put`s over the store preserves the scrub invariant. -/
theorem contentScrubbed_foldl (buffer : List LocalMessage)
    (store : List LocalMessage) (h : contentScrubbed store) :
    contentScrubbed
      (buffer.foldl (fun acc m => PinDb.putMsg (PinDb.scrubMsg m) acc) store) := by
  induction buffer generalizing store with
  | nil => simpa using h
  | cons b bs ih =>
      simp only [List.foldl_cons]
      refine ih _ ?_
      intro m hm
      rcases mem_putMsg hm with h1 | h1
      · simp [h1, PinDb.scrubMsg]
      · exact h m h1

/-- A WAL flush preserves the scrub invariant. -/
theorem contentScrubbed_flushWal (st : StoreState)
    (h : contentScrubbed st.store) : contentScrubbed (PinDb.flushWal st).store := by
  unfold PinDb.flushWal
  split
  · exact h
  · exact contentScrubbed_foldl st.buffer st.store h

/-- C3: every durable write path keeps plaintext out of the store.  If all
durable records carry the sentinel as `content`, then after a WAL flush,
after `addMessageDirect`, and after `updateMessageStatus`, they still do:
only the `encryptedContent` field carries message content at rest. -/
theorem store_never_persists_plaintext (st : StoreState) (m : LocalMessage)
    (id : String) (status : MsgStatus) (now : Nat)
    (h : contentScrubbed st.store) :
    contentScrubbed (PinDb.flushWal st).store
    ∧ contentScrubbed (PinDb.addMessageDirect st m).store
    ∧ contentScrubbed (PinDb.updateMessageStatus st id status now).store := by
  refine ⟨contentScrubbed_flushWal st h, ?_, ?_⟩
  · intro x hx
    rcases mem_putMsg hx with h1 | h1
    · simp [h1, PinDb.scrubMsg]
    · exact h x h1
  · unfold PinDb.updateMessageStatus
    have hflush := contentScrubbed_flushWal st h
    cases hfind : (PinDb.flushWal st).store.find? (fun x => x.id == id) with
    | none => simpa [hfind] using hflush
    | some found =>
        simp only [hfind]
        intro x hx
        rcases mem_putMsg hx with h1 | h1
        · have hmem := List.mem_of_find?_eq_some hfind
          have := hflush found hmem
          simp [h1, this]
        · exact hflush x h1

/-- Witness for C3 at a concrete state: a scrubbed durable record plus a
pending WAL entry still holding plaintext in memory. -/
theorem store_never_persists_plaintext_witness :
    contentScrubbed
      (StoreState.mk
        [⟨"p1", "ch", 0, "S", "plain text", "cipher1", none, none, 50, 40,
          MsgStatus.pending, none⟩]
        [⟨"a1", "ch", 0, "S", "[CIFRADO_LOCAL]", "cipher0", none, none, 99, 10,
          MsgStatus.delivered, none⟩]).store
    ∧ (contentScrubbed
        (PinDb.flushWal
          (StoreState.mk
            [⟨"p1", "ch", 0, "S", "plain text", "cipher1", none, none, 50, 40,
              MsgStatus.pending, none⟩]
            [⟨"a1", "ch", 0, "S", "[CIFRADO_LOCAL]", "cipher0", none, none, 99, 10,
              MsgStatus.delivered, none⟩])).store
      ∧ contentScrubbed
          (PinDb.addMessageDirect
            (StoreState.mk
              [⟨"p1", "ch", 0, "S", "plain text", "cipher1", none, none, 50, 40,
                MsgStatus.pending, none⟩]
              [⟨"a1", "ch", 0, "S", "[CIFRADO_LOCAL]", "cipher0", none, none, 99, 10,
                MsgStatus.delivered, none⟩])
            ⟨"b2", "ch", 0, "S", "more plain", "cipher2", none, none, 60, 45,
              MsgStatus.sent, none⟩).store
      ∧ contentScrubbed
          (PinDb.updateMessageStatus
            (StoreState.mk
              [⟨"p1", "ch", 0, "S", "plain text", "cipher1", none, none, 50, 40,
                MsgStatus.pending, none⟩]
              [⟨"a1", "ch", 0, "S", "[CIFRADO_LOCAL]", "cipher0", none, none, 99, 10,
                MsgStatus.delivered, none⟩])
            "a1" MsgStatus.sent 77).store) := by
  constructor
  · intro m hm
    simp only [List.mem_singleton] at hm
    simp [hm]
  · exact store_never_persists_plaintext _
      ⟨"b2", "ch", 0, "S", "more plain", "cipher2", none, none, 60, 45,
        MsgStatus.sent, none⟩ "a1" MsgStatus.sent 77
      (by intro m hm; simp only [List.mem_singleton] at hm; simp [hm])

/-- A flushed state has an empty WAL buffer. -/
theorem flushWal_buffer_empty (st : StoreState) : (PinDb.flushWal st).buffer = [] := by
  unfold PinDb.flushWal
  split
  · next hEmpty => exact List.isEmpty_iff.mp hEmpty
  · rfl

/-- Flushing a state whose buffer is empty changes nothing. -/
theorem flushWal_of_buffer_empty (st : StoreState) (h : st.buffer = []) :
    PinDb.flushWal st = st := by
  unfold PinDb.flushWal
  simp [h]

/-- C4 counterexample: with durable messages expiring at 10 (past), 20
(now) and 30 (future) and the sweep run at `now = 20`, the sweep removes
the `past` AND the `now` message (the cursor range is
`upperBound(now)`, an inclusive bound), leaving only `future` — the claim
says the `now` message remains. -/
theorem deleteExpired_removes_now_cx :
    (PinDb.deleteExpiredMessages
        (StoreState.mk []
          [⟨"m1", "ch", 0, "S", "[CIFRADO_LOCAL]", "e1", none, none, 10, 5,
            MsgStatus.delivered, none⟩,
           ⟨"m2", "ch", 0, "S", "[CIFRADO_LOCAL]", "e2", none, none, 20, 6,
            MsgStatus.delivered, none⟩,
           ⟨"m3", "ch", 0, "S", "[CIFRADO_LOCAL]", "e3", none, none, 30, 7,
            MsgStatus.delivered, none⟩]) 20).2.store
      = [⟨"m3", "ch", 0, "S", "[CIFRADO_LOCAL]", "e3", none, none, 30, 7,
          MsgStatus.delivered, none⟩]
    ∧ (PinDb.deleteExpiredMessages
        (StoreState.mk []
          [⟨"m1", "ch", 0, "S", "[CIFRADO_LOCAL]", "e1", none, none, 10, 5,
            MsgStatus.delivered, none⟩,
           ⟨"m2", "ch", 0, "S", "[CIFRADO_LOCAL]", "e2", none, none, 20, 6,
            MsgStatus.delivered, none⟩,
           ⟨"m3", "ch", 0, "S", "[CIFRADO_LOCAL]", "e3", none, none, 30, 7,
            MsgStatus.delivered, none⟩]) 20).1 = 2 := by
  constructor <;> rfl

/-- The expiry sweep is a no-op on a flushed state with no expired
message. -/
theorem deleteExpired_noop (s2 : StoreState) (now : Nat)
    (hbuf : s2.buffer = [])
    (hstore : ∀ m ∈ s2.store, ¬ (m.expiresAt ≤ now)) :
    PinDb.deleteExpiredMessages s2 now = (0, s2) := by
  obtain ⟨buf, store⟩ := s2
  simp only at hbuf
  subst hbuf
  simp only [PinDb.deleteExpiredMessages, flushWal_of_buffer_empty ⟨[], store⟩ rfl]
  simp only [Prod.mk.injEq, StoreState.mk.injEq, true_and]
  constructor
  · simpa [List.filter_eq_nil_iff] using hstore
  · rw [List.filter_eq_self.mpr]
    intro a ha
    simpa using hstore a ha

/-- Memberships in the post-sweep store: exactly the flushed records
whose expiry is strictly in the future. -/
theorem deleteExpired_mem (st : StoreState) (now : Nat) (m : LocalMessage) :
    m ∈ (PinDb.deleteExpiredMessages st now).2.store ↔
      (m ∈ (PinDb.flushWal st).store ∧ now < m.expiresAt) := by
  simp [PinDb.deleteExpiredMessages, List.mem_filter, Nat.not_le]

/-- C4 (amended): `deleteExpiredMessages` run at time `now` removes
exactly the messages with `expiresAt ≤ now` (so a message expiring
exactly at `now` is also removed), leaves every other message unchanged,
and a second run at the same time removes nothing (idempotence). -/
theorem deleteExpired_exact_and_idempotent (st : StoreState) (now : Nat) :
    (∀ m, m ∈ (PinDb.deleteExpiredMessages st now).2.store ↔
        (m ∈ (PinDb.flushWal st).store ∧ now < m.expiresAt))
    ∧ PinDb.deleteExpiredMessages (PinDb.deleteExpiredMessages st now).2 now
        = (0, (PinDb.deleteExpiredMessages st now).2) := by
  refine ⟨deleteExpired_mem st now, ?_⟩
  refine deleteExpired_noop _ now ?_ ?_
  · simp [PinDb.deleteExpiredMessages, flushWal_buffer_empty]
  · intro m hm
    have := (deleteExpired_mem st now m).mp hm
    omega

/-- C5 counterexample: after a failed flush the buffered entry is gone
from the in-memory WAL — it is discarded, not kept queued for retry. -/
theorem flushFallible_discards_cx :
    (PinDb.flushWalFallible
        (StoreState.mk
          [⟨"w1", "ch", 0, "S", "hello", "c1", none, none, 99, 10,
            MsgStatus.pending, none⟩] []) false).2.buffer = []
    ∧ (PinDb.flushWalFallible
        (StoreState.mk
          [⟨"w1", "ch", 0, "S", "hello", "c1", none, none, 99, 10,
            MsgStatus.pending, none⟩] []) false).2.buffer
        ≠ [⟨"w1", "ch", 0, "S", "hello", "c1", none, none, 99, 10,
            MsgStatus.pending, none⟩] := by
  constructor
  · rfl
  · decide

/-- C5 (amended): when the durable write of a flush fails, the error is
surfaced to the caller and the durable store is untouched, but the
affected WAL entries were removed from the in-memory buffer before the
write, so they are discarded rather than retried on the next flush. -/
theorem flushFallible_error_discards_buffer (st : StoreState)
    (h : st.buffer ≠ []) :
    PinDb.flushWalFallible st false
      = (some DbError.storageFailure, { st with buffer := [] }) := by
  unfold PinDb.flushWalFallible
  simp [List.isEmpty_iff, h]

/-- Witness for C5 at a concrete one-entry buffer. -/
theorem flushFallible_error_discards_buffer_witness :
    ((StoreState.mk
        [⟨"w2", "ch", 0, "S", "hi", "c2", none, none, 99, 10,
          MsgStatus.pending, none⟩] []).buffer ≠ [])
    ∧ PinDb.flushWalFallible
        (StoreState.mk
          [⟨"w2", "ch", 0, "S", "hi", "c2", none, none, 99, 10,
            MsgStatus.pending, none⟩] []) false
        = (some DbError.storageFailure, StoreState.mk [] []) := by
  refine ⟨by simp, ?_⟩
  exact flushFallible_error_discards_buffer _ (by simp)

/-- The cursor loop rehydrates and stops after `limit` records. -/
theorem cursorTake_eq_take_map (n : Nat) (l : List LocalMessage) :
    PinDb.cursorTake n l = (l.take n).map PinDb.hydrateMsg := by
  induction n generalizing l with
  | zero => simp [PinDb.cursorTake]
  | succ k ih =>
      cases l with
      | nil => simp [PinDb.cursorTake]
      | cons x xs => simp [PinDb.cursorTake, ih]

/-- C8 (amended): `getMessagesByChannel` flushes the WAL and returns the
up-to-`limit` records of the channel that are greatest in IndexedDB
primary-key (`id`) order — the tail of the key-ordered channel records —
in ascending key order, each rehydrated (the scrubbed `content` is
replaced by `encryptedContent`).  Chronological order is obtained only
insofar as key order agrees with `createdAt` order. -/
theorem getMessagesByChannel_key_order (st : StoreState) (channelId : String)
    (limit : Nat) :
    (PinDb.getMessagesByChannel st channelId limit).1
      = (((PinDb.flushWal st).store.filter
            (fun m => m.channelId == channelId)).drop
          (((PinDb.flushWal st).store.filter
            (fun m => m.channelId == channelId)).length - limit)).map
          PinDb.hydrateMsg
    ∧ (PinDb.getMessagesByChannel st channelId limit).2 = PinDb.flushWal st := by
  refine ⟨?_, rfl⟩
  simp only [PinDb.getMessagesByChannel]
  rw [cursorTake_eq_take_map, List.take_reverse, List.map_reverse,
    List.reverse_reverse]

/-- C8 counterexample: with two channel records whose key order disagrees
with their timestamps — id "a" created at 100, id "b" created at 50 —
`getMessagesByChannel` with limit 1 returns the id-greatest record
(created at 50), not the most recent one (created at 100), and with
limit 2 the result is not in ascending chronological order. -/
theorem getMessagesByChannel_order_cx :
    ((PinDb.getMessagesByChannel
        (StoreState.mk []
          [⟨"a", "ch", 0, "S", "[CIFRADO_LOCAL]", "ca", none, none, 999, 100,
            MsgStatus.delivered, none⟩,
           ⟨"b", "ch", 0, "S", "[CIFRADO_LOCAL]", "cb", none, none, 999, 50,
            MsgStatus.delivered, none⟩]) "ch" 1).1.map
        (fun m => m.createdAt)) = [50]
    ∧ ((PinDb.getMessagesByChannel
        (StoreState.mk []
          [⟨"a", "ch", 0, "S", "[CIFRADO_LOCAL]", "ca", none, none, 999, 100,
            MsgStatus.delivered, none⟩,
           ⟨"b", "ch", 0, "S", "[CIFRADO_LOCAL]", "cb", none, none, 999, 50,
            MsgStatus.delivered, none⟩]) "ch" 2).1.map
        (fun m => m.createdAt)) = [100, 50]
    ∧ (50 : Nat) < 100 := by
  refine ⟨rfl, rfl, by decide⟩

/-- C10: updating the status of a message id that is not in the durable
store (after the WAL flush that the operation performs first) completes
without error and is a no-op: no record is created for the unknown id and
no existing record is modified; with an empty WAL buffer the state is
exactly unchanged. -/
theorem updateMessageStatus_missing_id (st : StoreState) (id : String)
    (status : MsgStatus) (now : Nat)
    (h : (PinDb.flushWal st).store.find? (fun m => m.id == id) = none) :
    PinDb.updateMessageStatus st id status now = PinDb.flushWal st
    ∧ (st.buffer = [] → PinDb.updateMessageStatus st id status now = st) := by
  have h1 : PinDb.updateMessageStatus st id status now = PinDb.flushWal st := by
    unfold PinDb.updateMessageStatus
    simp [h]
  refine ⟨h1, fun hb => ?_⟩
  rw [h1, flushWal_of_buffer_empty st hb]

/-- Witness for C10: a store holding only id "a1", updated at id "zz". -/
theorem updateMessageStatus_missing_id_witness :
    ((PinDb.flushWal
        (StoreState.mk []
          [⟨"a1", "ch", 0, "S", "[CIFRADO_LOCAL]", "c0", none, none, 99, 10,
            MsgStatus.delivered, none⟩])).store.find?
        (fun m => m.id == "zz") = none)
    ∧ PinDb.updateMessageStatus
        (StoreState.mk []
          [⟨"a1", "ch", 0, "S", "[CIFRADO_LOCAL]", "c0", none, none, 99, 10,
            MsgStatus.delivered, none⟩]) "zz" MsgStatus.sent 500
      = StoreState.mk []
          [⟨"a1", "ch", 0, "S", "[CIFRADO_LOCAL]", "c0", none, none, 99, 10,
            MsgStatus.delivered, none⟩] := by
  refine ⟨by decide, ?_⟩
  exact (updateMessageStatus_missing_id _ "zz" MsgStatus.sent 500 (by decide)).2 rfl

/-- C7: the bucket-id invariant fails on the realtime sync path.  A
message received through `syncService.subscribeToChannel` with cloud
timestamp 1767225600000 ms (2026-01-01T00:00:00Z) is stored with
`bucketId = 0`, while `calculateBucketId` of its own `createdAt` is 2045:
the stored bucket id is hard-coded, not derived from the creation
timestamp. -/
theorem realtime_bucketId_not_derived :
    (syncRealtimeToLocal "ch" "42" "cipher" (some MediaType.text) none
        1767225600000 1767225600000).bucketId = 0
    ∧ calculateBucketId
        (syncRealtimeToLocal "ch" "42" "cipher" (some MediaType.text) none
          1767225600000 1767225600000).createdAt = 2045
    ∧ (syncRealtimeToLocal "ch" "42" "cipher" (some MediaType.text) none
        1767225600000 1767225600000).bucketId
      ≠ calculateBucketId
          (syncRealtimeToLocal "ch" "42" "cipher" (some MediaType.text) none
            1767225600000 1767225600000).createdAt := by
  refine ⟨rfl, by decide, by decide⟩

/-- Fold invariant for the eviction subquery: a produced row is either
the accumulator or an active, non-typing row of the list. -/
theorem findLRU_fold_mem (l : List Session) :
    ∀ (acc : Option Session) (w : Session),
      l.foldl
        (fun best s =>
          if s.status == SessionStatus.active && !s.isTyping then
            match best with
            | none => some s
            | some b => if s.lastHeartbeat < b.lastHeartbeat then some s else some b
          else best)
        acc = some w →
      acc = some w
      ∨ (w ∈ l ∧ w.status = SessionStatus.active ∧ w.isTyping = false) := by
  induction l with
  | nil => intro acc w h; exact Or.inl (by simpa using h)
  | cons s rest ih =>
      intro acc w h
      simp only [List.foldl_cons] at h
      rcases ih _ w h with h1 | h1
      · by_cases hg : s.status == SessionStatus.active && !s.isTyping
        · simp only [hg, if_true] at h1
          cases acc with
          | none =>
              have hs : s = w := by simpa using h1
              subst hs
              exact Or.inr ⟨List.mem_cons_self s rest, by simpa using hg⟩
          | some b =>
              by_cases hlt : s.lastHeartbeat < b.lastHeartbeat
              · simp only [if_pos hlt] at h1
                have hs : s = w := by simpa using h1
                subst hs
                exact Or.inr ⟨List.mem_cons_self s rest, by simpa using hg⟩
              · simp only [if_neg hlt] at h1
                exact Or.inl h1
        · simp only [hg, if_false] at h1
          simp only [Bool.false_eq_true, if_false] at h1
          exact Or.inl h1
      · exact Or.inr ⟨List.mem_cons_of_mem _ h1.1, h1.2⟩

/-- Fold invariant for the eviction subquery: the produced row has a
heartbeat no later than every active, non-typing row of the list and no
later than the accumulator's row. -/
theorem findLRU_fold_min (l : List Session) :
    ∀ (acc : Option Session) (w : Session),
      l.foldl
        (fun best s =>
          if s.status == SessionStatus.active && !s.isTyping then
            match best with
            | none => some s
            | some b => if s.lastHeartbeat < b.lastHeartbeat then some s else some b
          else best)
        acc = some w →
      (∀ t ∈ l, t.status = SessionStatus.active → t.isTyping = false →
          w.lastHeartbeat ≤ t.lastHeartbeat)
      ∧ (∀ b, acc = some b → w.lastHeartbeat ≤ b.lastHeartbeat) := by
  induction l with
  | nil =>
      intro acc w h
      refine ⟨by simp, fun b hb => ?_⟩
      have : acc = some w := by simpa using h
      rw [this] at hb
      cases hb
      exact Nat.le_refl _
  | cons s rest ih =>
      intro acc w h
      simp only [List.foldl_cons] at h
      by_cases hg : s.status == SessionStatus.active && !s.isTyping
      · simp only [hg, if_true] at h
        cases acc with
        | none =>
            rcases ih (some s) w h with ⟨hrest, hacc⟩
            refine ⟨?_, fun b hb => by cases hb⟩
            intro t ht hta htt
            rcases List.mem_cons.mp ht with h1 | h1
            · exact h1 ▸ hacc s rfl
            · exact hrest t h1 hta htt
        | some b =>
            by_cases hlt : s.lastHeartbeat < b.lastHeartbeat
            · simp only [if_pos hlt] at h
              rcases ih (some s) w h with ⟨hrest, hacc⟩
              refine ⟨?_, ?_⟩
              · intro t ht hta htt
                rcases List.mem_cons.mp ht with h1 | h1
                · exact h1 ▸ hacc s rfl
                · exact hrest t h1 hta htt
              · intro b0 hb0
                cases hb0
                exact Nat.le_trans (hacc s rfl) (Nat.le_of_lt hlt)
            · simp only [if_neg hlt] at h
              rcases ih (some b) w h with ⟨hrest, hacc⟩
              refine ⟨?_, ?_⟩
              · intro t ht hta htt
                rcases List.mem_cons.mp ht with h1 | h1
                · subst h1
                  exact Nat.le_trans (hacc b rfl) (Nat.le_of_not_lt hlt)
                · exact hrest t h1 hta htt
              · intro b0 hb0
                cases hb0
                exact hacc b rfl
      · simp only [hg, Bool.false_eq_true, if_false] at h
        rcases ih acc w h with ⟨hrest, hacc⟩
        refine ⟨?_, hacc⟩
        intro t ht hta htt
        rcases List.mem_cons.mp ht with h1 | h1
        · subst h1
          exact absurd (by simp [hta, htt]) hg
        · exact hrest t h1 hta htt

/-- The eviction subquery returns an active, non-typing member of the
table. -/
theorem findLRU_mem (l : List Session) (w : Session)
    (h : Sessions.findLRU l = some w) :
    w ∈ l ∧ w.status = SessionStatus.active ∧ w.isTyping = false := by
  have := findLRU_fold_mem l none w (by simpa [Sessions.findLRU] using h)
  rcases this with h1 | h1
  · cases h1
  · exact h1

/-- The eviction subquery returns a row of minimal heartbeat among the
active, non-typing rows. -/
theorem findLRU_min (l : List Session) (w : Session)
    (h : Sessions.findLRU l = some w) :
    ∀ t ∈ l, t.status = SessionStatus.active → t.isTyping = false →
      w.lastHeartbeat ≤ t.lastHeartbeat :=
  (findLRU_fold_min l none w (by simpa [Sessions.findLRU] using h)).1

/-- Demoting a user id absent from the table changes nothing. -/
theorem demoteUser_not_mem (l : List Session) (u : Nat)
    (h : ∀ s ∈ l, s.userId ≠ u) : Sessions.demoteUser l u = l := by
  induction l with
  | nil => rfl
  | cons x rest ih =>
      simp only [Sessions.demoteUser, List.map_cons]
      rw [if_neg (by simpa using h x (List.mem_cons_self x rest))]
      have := ih (fun s hs => h s (List.mem_cons_of_mem _ hs))
      simpa [Sessions.demoteUser] using this

/-- One step of `demoteUser`. -/
theorem demoteUser_cons (x : Session) (rest : List Session) (u : Nat) :
    Sessions.demoteUser (x :: rest) u
      = (if x.userId == u then { x with status := SessionStatus.queued } else x)
        :: Sessions.demoteUser rest u := rfl

/-- One step of `queuedCount`. -/
theorem queuedCount_cons (x : Session) (l : List Session) :
    Sessions.queuedCount (x :: l)
      = (if x.status == SessionStatus.queued then 1 else 0)
        + Sessions.queuedCount l := by
  simp only [Sessions.queuedCount, List.filter_cons]
  by_cases hq : x.status == SessionStatus.queued
  · simp [hq, Nat.add_comm]
  · simp [hq]

/-- Demoting the user id of an active row of a duplicate-free table
raises the queued count by exactly one. -/
theorem queuedCount_demote (l : List Session) (w : Session)
    (hmem : w ∈ l) (hnd : (l.map (fun s => s.userId)).Nodup)
    (hact : w.status = SessionStatus.active) :
    Sessions.queuedCount (Sessions.demoteUser l w.userId)
      = Sessions.queuedCount l + 1 := by
  induction l with
  | nil => cases hmem
  | cons x rest ih =>
      simp only [List.map_cons, List.nodup_cons] at hnd
      rw [demoteUser_cons, queuedCount_cons, queuedCount_cons]
      rcases List.mem_cons.mp hmem with h1 | h1
      · subst h1
        have hrest : ∀ s ∈ rest, s.userId ≠ w.userId := fun s hs hEq =>
          hnd.1 (hEq ▸ List.mem_map_of_mem (fun s => s.userId) hs)
        rw [demoteUser_not_mem rest w.userId hrest]
        rw [if_pos (by simp)]
        simp [hact, Nat.add_comm]
      · have hx : (x.userId == w.userId) = false := by
          simp only [beq_eq_false_iff_ne, ne_eq]
          intro hEq
          exact hnd.1 (hEq ▸ List.mem_map_of_mem (fun s => s.userId) h1)
        simp only [hx, Bool.false_eq_true, if_false]
        rw [ih h1 hnd.2]
        omega

/-- Queued count over an appended queued row. -/
theorem queuedCount_append_queued (l : List Session) (row : Session)
    (h : row.status = SessionStatus.queued) :
    Sessions.queuedCount (l ++ [row]) = Sessions.queuedCount l + 1 := by
  simp [Sessions.queuedCount, List.filter_append, h]

/-- Upserting a fresh user id appends a new row (queued unless under the cap). -/
theorem upsertSession_fresh (tbl : List Session) (uid : Nat) (pin : String)
    (now : Nat) (underCap : Bool) (h : ∀ s ∈ tbl, s.userId ≠ uid) :
    Sessions.upsertSession tbl uid pin now underCap
      = tbl ++ [{ userId := uid, pinId := pin, lastHeartbeat := now
                  status := if underCap then SessionStatus.active else SessionStatus.queued
                  isTyping := false }] := by
  unfold Sessions.upsertSession
  rw [if_neg]
  simp only [List.any_eq_true, not_exists, not_and]
  intro s hs
  simpa using h s hs

/-- Looking up a freshly appended row finds it with its own status. -/
theorem statusOfUser_append_fresh (tbl : List Session) (row : Session)
    (h : ∀ s ∈ tbl, s.userId ≠ row.userId) :
    Sessions.statusOfUser (tbl ++ [row]) row.userId = some row.status := by
  induction tbl with
  | nil => simp [Sessions.statusOfUser]
  | cons x rest ih =>
      have hx : (x.userId == row.userId) = false := by
        simpa using h x (List.mem_cons_self x rest)
      simp only [Sessions.statusOfUser, List.cons_append, List.find?_cons]
      rw [hx]
      exact ih (fun s hs => h s (List.mem_cons_of_mem _ hs))

/-- One step of `statusOfUser`. -/
theorem statusOfUser_cons (x : Session) (l : List Session) (v : Nat) :
    Sessions.statusOfUser (x :: l) v
      = if x.userId == v then some x.status else Sessions.statusOfUser l v := by
  simp only [Sessions.statusOfUser, List.find?_cons]
  by_cases h : (x.userId == v) = true
  · simp [h]
  · simp [h]

/-- Demotion preserves a `queued` lookup result. -/
theorem statusOfUser_demote_queued (l : List Session) (u v : Nat)
    (h : Sessions.statusOfUser l v = some SessionStatus.queued) :
    Sessions.statusOfUser (Sessions.demoteUser l u) v
      = some SessionStatus.queued := by
  induction l with
  | nil => exact absurd h (by simp [Sessions.statusOfUser])
  | cons x rest ih =>
      rw [demoteUser_cons]
      rw [statusOfUser_cons] at h
      by_cases hv : (x.userId == v) = true
      · rw [if_pos hv] at h
        have hstat : x.status = SessionStatus.queued := Option.some.inj h
        by_cases hu : (x.userId == u) = true
        · rw [if_pos hu, statusOfUser_cons]
          simp [hv]
        · rw [if_neg (by simp [hu]), statusOfUser_cons]
          simp [hv, hstat]
      · rw [if_neg hv] at h
        by_cases hu : (x.userId == u) = true
        · rw [if_pos hu, statusOfUser_cons]
          have hv2 : ((({ x with status := SessionStatus.queued } : Session).userId
              == v)) = false := by simpa using hv
          rw [if_neg (by simp [hv2])]
          exact ih h
        · rw [if_neg (by simp [hu]), statusOfUser_cons]
          rw [if_neg (by simp [hv])]
          exact ih h

/-- After demoting user id `u`, a table containing a row with id `u`
reports that id as `queued`. -/
theorem statusOfUser_demote_self (l : List Session) (u : Nat)
    (h : ∃ s ∈ l, s.userId = u) :
    Sessions.statusOfUser (Sessions.demoteUser l u) u
      = some SessionStatus.queued := by
  induction l with
  | nil => simp at h
  | cons x rest ih =>
      rw [demoteUser_cons]
      by_cases hu : (x.userId == u) = true
      · rw [if_pos hu, statusOfUser_cons]
        simp [hu]
      · rcases h with ⟨s, hs, hsu⟩
        rcases List.mem_cons.mp hs with h1 | h1
        · exact absurd (by simp [h1 ▸ hsu]) hu
        · rw [if_neg (by simp [hu]), statusOfUser_cons]
          rw [if_neg (by simp [hu])]
          exact ih ⟨s, h1, hsu⟩

/-- C6 (amended): with the table at capacity (180 active sessions) and a
fresh identity heartbeating, the newcomer is inserted with status
`queued` AND the least-recently-active non-typing active session is
demoted to `queued` as well — two sessions end up queued by the call, not
one.  The demoted session is active, non-typing, and of minimal
`last_heartbeat` among the active non-typing sessions. -/
theorem heartbeat_at_capacity_two_queued (tbl : List Session) (uid : Nat)
    (pin : String) (now : Nat) (w : Session)
    (hcnt : Sessions.activeCount tbl = Sessions.capacity)
    (hfresh : ∀ s ∈ tbl, s.userId ≠ uid)
    (hnd : (tbl.map (fun s => s.userId)).Nodup)
    (hw : Sessions.findLRU
        (tbl ++ [⟨uid, pin, now, SessionStatus.queued, false⟩]) = some w) :
    Sessions.statusOfUser (Sessions.heartbeat tbl uid pin now) uid
        = some SessionStatus.queued
    ∧ Sessions.statusOfUser (Sessions.heartbeat tbl uid pin now) w.userId
        = some SessionStatus.queued
    ∧ w ∈ tbl ∧ w.status = SessionStatus.active ∧ w.isTyping = false
    ∧ (∀ t ∈ tbl, t.status = SessionStatus.active → t.isTyping = false →
        w.lastHeartbeat ≤ t.lastHeartbeat)
    ∧ Sessions.queuedCount (Sessions.heartbeat tbl uid pin now)
        = Sessions.queuedCount tbl + 2 := by
  have hups : Sessions.upsertSession tbl uid pin now
      (Sessions.activeCount tbl < Sessions.capacity)
      = tbl ++ [⟨uid, pin, now, SessionStatus.queued, false⟩] := by
    rw [upsertSession_fresh tbl uid pin now _ hfresh, hcnt]
    simp [Sessions.capacity]
  rw [hcnt] at hups
  have hres : Sessions.heartbeat tbl uid pin now
      = Sessions.demoteUser
          (tbl ++ [⟨uid, pin, now, SessionStatus.queued, false⟩]) w.userId := by
    simp only [Sessions.heartbeat, hcnt, hups, le_refl, if_true, hw]
  obtain ⟨hwL, hwact, hwtyp⟩ := findLRU_mem _ w hw
  have hwtbl : w ∈ tbl := by
    rcases List.mem_append.mp hwL with h1 | h1
    · exact h1
    · have h2 := List.mem_singleton.mp h1
      rw [h2] at hwact
      exact absurd hwact (by simp)
  have hndL : (((tbl ++ [(⟨uid, pin, now, SessionStatus.queued, false⟩ : Session)]).map
        (fun s => s.userId))).Nodup := by
    rw [List.map_append, List.nodup_append]
    refine ⟨hnd, List.nodup_singleton _, ?_⟩
    intro a ha hb
    simp only [List.map_cons, List.map_nil, List.mem_singleton] at hb
    rcases List.mem_map.mp ha with ⟨s, hs, rfl⟩
    exact hfresh s hs (by simpa using hb)
  refine ⟨?_, ?_, hwtbl, hwact, hwtyp, ?_, ?_⟩
  · rw [hres]
    apply statusOfUser_demote_queued
    exact statusOfUser_append_fresh tbl _ (fun s hs => hfresh s hs)
  · rw [hres]
    exact statusOfUser_demote_self _ _ ⟨w, hwL, rfl⟩
  · intro t ht hta htt
    exact findLRU_min _ w hw t (List.mem_append_left _ ht) hta htt
  · rw [hres, queuedCount_demote _ w hwL hndL hwact,
      queuedCount_append_queued tbl _ rfl]

/-- C6 counterexample: a table of 180 active, non-typing sessions (user
ids 0..179, strictly increasing heartbeats) and a 181st identity
heartbeating.  After the call TWO sessions have status `queued` — the
newcomer and the demoted least-recently-active session — where the claim
says exactly one ends up queued. -/
theorem heartbeat_two_queued_cx :
    Sessions.queuedCount
      (Sessions.heartbeat
        ((List.range 180).map
          (fun i => ⟨i, "P", 1000 + i, SessionStatus.active, false⟩))
        999 "Q" 5000) = 2
    ∧ (2 : Nat) ≠ 1 := by
  exact ⟨by decide, by decide⟩

/-- Witness for C6 at the concrete 180-session table: the newcomer
(user 999) is queued, the least-recently-active session (user 0) is
demoted, and the queued count rises by two. -/
theorem heartbeat_at_capacity_two_queued_witness :
    Sessions.activeCount
        ((List.range 180).map
          (fun i => ⟨i, "P", 1000 + i, SessionStatus.active, false⟩))
      = Sessions.capacity
    ∧ (∀ s ∈ (List.range 180).map
          (fun i => (⟨i, "P", 1000 + i, SessionStatus.active, false⟩ : Session)),
        s.userId ≠ 999)
    ∧ (((List.range 180).map
          (fun i => (⟨i, "P", 1000 + i, SessionStatus.active, false⟩ : Session))).map
        (fun s => s.userId)).Nodup
    ∧ Sessions.findLRU
        (((List.range 180).map
          (fun i => (⟨i, "P", 1000 + i, SessionStatus.active, false⟩ : Session)))
          ++ [⟨999, "Q", 5000, SessionStatus.queued, false⟩])
      = some ⟨0, "P", 1000, SessionStatus.active, false⟩
    ∧ Sessions.statusOfUser
        (Sessions.heartbeat
          ((List.range 180).map
            (fun i => ⟨i, "P", 1000 + i, SessionStatus.active, false⟩))
          999 "Q" 5000) 999
      = some SessionStatus.queued
    ∧ Sessions.statusOfUser
        (Sessions.heartbeat
          ((List.range 180).map
            (fun i => ⟨i, "P", 1000 + i, SessionStatus.active, false⟩))
          999 "Q" 5000) 0
      = some SessionStatus.queued
    ∧ Sessions.queuedCount
        (Sessions.heartbeat
          ((List.range 180).map
            (fun i => ⟨i, "P", 1000 + i, SessionStatus.active, false⟩))
          999 "Q" 5000)
      = Sessions.queuedCount
          ((List.range 180).map
            (fun i => ⟨i, "P", 1000 + i, SessionStatus.active, false⟩)) + 2 := by
  have H := heartbeat_at_capacity_two_queued
    ((List.range 180).map
      (fun i => ⟨i, "P", 1000 + i, SessionStatus.active, false⟩))
    999 "Q" 5000 ⟨0, "P", 1000, SessionStatus.active, false⟩
    (by decide) (by decide) (by decide) (by decide)
  exact ⟨by decide, by decide, by decide, by decide,
    H.1, H.2.1, H.2.2.2.2.2.2⟩
